import Mathlib

/-!
Verification development for the trading-board repository.

The Lean definitions below are shallow embeddings of the Python sources:

* `trading/domain/matching.py`   — `MatchingEngine.match` (here `matchOrder`);
* `trading/services/order_service.py` — `OrderService.submit` and its helpers;
* `market_data/generators/order_book.py` — `LadderOrderBookGenerator.build`;
* `market_data/generators/dealer_quotes.py` — `DealerQuoteGenerator.generate`;
* `market_data/service.py` — `MarketDataService.pump_once`.

Python `float` values are modelled as exact rationals (`ℚ`), `int` as `ℤ`,
`datetime` as `ℤ` (an abstract timeline), and `random.Random.normalvariate`
draws as an explicit stream of rational inputs.  Fallible code returns
`Except` values; pydantic model validators are embedded as explicit checks
performed at construction time.
-/

namespace TradingBoard

/-! ## Domain model (trading/domain/models.py) -/

inductive OrderSide where
  | BUY
  | SELL
deriving DecidableEq, Repr

inductive OrderType where
  | MARKET
  | LIMIT
deriving DecidableEq, Repr

inductive OrderStatus where
  | NEW
  | PARTIALLY_FILLED
  | FILLED
  | CANCELLED
deriving DecidableEq, Repr

/-- `BaseOrderRequest` / `LimitOrderRequest` / `MarketOrderRequest`.
`limit_price` is `none` for market orders; `quantity` is validated
positive by the pydantic model, which theorems take as a hypothesis. -/
structure OrderRequest where
  user_id : String
  instrument_id : String
  side : OrderSide
  quantity : ℤ
  order_type : OrderType
  limit_price : Option ℚ
  time_in_force : String
deriving DecidableEq, Repr

/-- `ListedInstrumentBook`: price levels are `(price, quantity)` pairs,
bids stored best-first descending, asks best-first ascending. -/
structure ListedInstrumentBook where
  instrument_id : String
  bids : List (ℚ × ℤ)
  asks : List (ℚ × ℤ)
  last_updated : ℤ
deriving DecidableEq, Repr

structure AccountSnapshot where
  user_id : String
  cash_balance : ℚ
  base_currency : String
  margin_allowed : Bool
  updated_at : ℤ
deriving DecidableEq, Repr

structure PositionRecord where
  user_id : String
  instrument_id : String
  quantity : ℤ
  average_price : ℚ
  updated_at : ℤ
deriving DecidableEq, Repr

structure OrderRecord where
  order_id : String
  user_id : String
  instrument_id : String
  side : OrderSide
  order_type : OrderType
  quantity : ℤ
  filled_quantity : ℤ
  limit_price : Option ℚ
  average_price : Option ℚ
  status : OrderStatus
  time_in_force : String
  created_at : ℤ
  updated_at : ℤ
deriving DecidableEq, Repr

structure ExecutionEvent where
  execution_id : String
  order_id : String
  user_id : String
  instrument_id : String
  side : OrderSide
  quantity : ℤ
  price : ℚ
  timestamp : ℤ
deriving DecidableEq, Repr

/-! ## Matching engine (trading/domain/matching.py) -/

structure Fill where
  price : ℚ
  quantity : ℤ
deriving DecidableEq, Repr

/-- The per-level acceptance predicate built inside `MatchingEngine.match`:
market orders accept every level; a limit BUY accepts `price ≤ limit_price`,
a limit SELL accepts `price ≥ limit_price`, and a limit order with no
`limit_price` attribute accepts nothing. -/
def priceCondition (o : OrderRequest) (price : ℚ) : Bool :=
  match o.side with
  | .BUY =>
    match o.order_type with
    | .MARKET => true
    | .LIMIT =>
      match o.limit_price with
      | none => false
      | some lp => decide (price ≤ lp)
  | .SELL =>
    match o.order_type with
    | .MARKET => true
    | .LIMIT =>
      match o.limit_price with
      | none => false
      | some lp => decide (lp ≤ price)

/-- The level loop of `MatchingEngine.match`: walk the stored levels,
break once `remaining ≤ 0`, skip levels failing the price condition,
otherwise take `min(available, remaining)`. -/
def matchLevels (pred : ℚ → Bool) : List (ℚ × ℤ) → ℤ → List Fill × ℤ
  | [], remaining => ([], remaining)
  | (price, available) :: rest, remaining =>
    if remaining ≤ 0 then ([], remaining)
    else if pred price then
      let fillQty := min available remaining
      let next := matchLevels pred rest (remaining - fillQty)
      (⟨price, fillQty⟩ :: next.1, next.2)
    else matchLevels pred rest remaining

/-- `MatchingEngine.match`: BUY crosses the asks, SELL crosses the bids;
returns `(fills, residual)`. -/
def matchOrder (o : OrderRequest) (book : ListedInstrumentBook) : List Fill × ℤ :=
  let levels := match o.side with
    | .BUY => book.asks
    | .SELL => book.bids
  matchLevels (priceCondition o) levels o.quantity

/-- `sum(fill.quantity for fill in fills)` in `OrderService.submit`. -/
def sumFillQty (fills : List Fill) : ℤ :=
  (fills.map (·.quantity)).sum

/-- `sum(fill.price * fill.quantity for fill in fills)`. -/
def sumConsideration (fills : List Fill) : ℚ :=
  (fills.map (fun f => f.price * (f.quantity : ℚ))).sum

/-- The side of the book `MatchingEngine.match` iterates for an order. -/
def sideLevels (o : OrderRequest) (book : ListedInstrumentBook) : List (ℚ × ℤ) :=
  match o.side with
  | .BUY => book.asks
  | .SELL => book.bids

/-- `fillsTaken pred fills sel r` says: `fills` were taken, in order, from
the list `sel` of `(price, available)` levels, each accepted by `pred`,
each fill quantity being `min(available, remaining)` for the remaining
quantity `r` at that point. -/
def fillsTaken (pred : ℚ → Bool) : List Fill → List (ℚ × ℤ) → ℤ → Prop
  | [], [], _ => True
  | f :: fills, (price, available) :: sel, r =>
    f.price = price ∧ pred price = true ∧ f.quantity = min available r ∧
      fillsTaken pred fills sel (r - f.quantity)
  | _, _, _ => False

/-! ### Matching-engine lemmas -/

theorem matchLevels_conserves (pred : ℚ → Bool) :
    ∀ (levels : List (ℚ × ℤ)) (r : ℤ),
      sumFillQty (matchLevels pred levels r).1 + (matchLevels pred levels r).2 = r := by
  intro levels
  induction levels with
  | nil => intro r; simp [matchLevels, sumFillQty]
  | cons hd tl ih =>
    intro r
    obtain ⟨price, available⟩ := hd
    by_cases hr : r ≤ 0
    · simp [matchLevels, hr, sumFillQty]
    · by_cases hp : pred price
      · have := ih (r - min available r)
        simp only [matchLevels, if_neg hr, if_pos hp]
        simp only [sumFillQty, List.map_cons, List.sum_cons] at *
        omega
      · simpa [matchLevels, hr, hp] using ih r

theorem matchLevels_pred (pred : ℚ → Bool) :
    ∀ (levels : List (ℚ × ℤ)) (r : ℤ),
      ∀ f ∈ (matchLevels pred levels r).1, pred f.price = true := by
  intro levels
  induction levels with
  | nil => intro r f hf; simp [matchLevels] at hf
  | cons hd tl ih =>
    intro r f hf
    obtain ⟨price, available⟩ := hd
    by_cases hr : r ≤ 0
    · simp [matchLevels, hr] at hf
    · by_cases hp : pred price
      · simp only [matchLevels, if_neg hr, if_pos hp, List.mem_cons] at hf
        rcases hf with hf | hf
        · subst hf; exact hp
        · exact ih _ f hf
      · simp only [matchLevels, if_neg hr, if_neg hp] at hf
        exact ih _ f hf

theorem matchLevels_taken (pred : ℚ → Bool) :
    ∀ (levels : List (ℚ × ℤ)) (r : ℤ),
      ∃ sel, sel.Sublist levels ∧
        fillsTaken pred (matchLevels pred levels r).1 sel r := by
  intro levels
  induction levels with
  | nil => intro r; exact ⟨[], List.Sublist.refl _, trivial⟩
  | cons hd tl ih =>
    intro r
    obtain ⟨price, available⟩ := hd
    by_cases hr : r ≤ 0
    · exact ⟨[], List.nil_sublist _, by simp [matchLevels, hr, fillsTaken]⟩
    · by_cases hp : pred price
      · obtain ⟨sel, hsub, htaken⟩ := ih (r - min available r)
        refine ⟨(price, available) :: sel, List.Sublist.cons₂ _ hsub, ?_⟩
        simp only [matchLevels, if_neg hr, if_pos hp]
        exact ⟨rfl, hp, rfl, htaken⟩
      · obtain ⟨sel, hsub, htaken⟩ := ih r
        refine ⟨sel, List.Sublist.cons _ hsub, ?_⟩
        simpa [matchLevels, hr, hp] using htaken

theorem matchLevels_residual_nonneg (pred : ℚ → Bool) :
    ∀ (levels : List (ℚ × ℤ)) (r : ℤ), 0 ≤ r → 0 ≤ (matchLevels pred levels r).2 := by
  intro levels
  induction levels with
  | nil => intro r hr; simpa [matchLevels] using hr
  | cons hd tl ih =>
    intro r hr
    obtain ⟨price, available⟩ := hd
    by_cases hr0 : r ≤ 0
    · simpa [matchLevels, hr0] using hr
    · by_cases hp : pred price
      · simp only [matchLevels, if_neg hr0, if_pos hp]
        exact ih _ (by omega)
      · simp only [matchLevels, if_neg hr0, if_neg hp]
        exact ih _ hr

/-- Filled quantity is at most the requested quantity (when that is
non-negative), since the residual stays non-negative. -/
theorem sumFillQty_le (o : OrderRequest) (book : ListedInstrumentBook)
    (hq : 0 ≤ o.quantity) : sumFillQty (matchOrder o book).1 ≤ o.quantity := by
  have hcons := matchLevels_conserves (priceCondition o)
    (sideLevels o book) o.quantity
  have hres := matchLevels_residual_nonneg (priceCondition o)
    (sideLevels o book) o.quantity hq
  unfold matchOrder
  unfold sideLevels at hcons hres
  cases h : o.side <;> simp only [h] at hcons hres ⊢ <;> omega

/-- C1: For every order request and book snapshot, `MatchingEngine.match`
returns `(fills, residual)` with `Σ fills.quantity + residual =
order.quantity`; every fill's price satisfies the limit predicate
(MARKET always, LIMIT BUY `price ≤ limit_price`, LIMIT SELL
`price ≥ limit_price`); and the fills were taken, in the snapshot's
stored level order (a sublist of the crossed side), each with quantity
`min(level.available, remaining)` at the level it was taken from. -/
theorem matchOrder_spec (o : OrderRequest) (book : ListedInstrumentBook) :
    sumFillQty (matchOrder o book).1 + (matchOrder o book).2 = o.quantity ∧
    (∀ f ∈ (matchOrder o book).1, priceCondition o f.price = true) ∧
    ∃ sel, sel.Sublist (sideLevels o book) ∧
      fillsTaken (priceCondition o) (matchOrder o book).1 sel o.quantity := by
  refine ⟨?_, ?_, ?_⟩
  · have := matchLevels_conserves (priceCondition o) (sideLevels o book) o.quantity
    unfold matchOrder
    unfold sideLevels at this
    cases h : o.side <;> simpa [h] using this
  · have := matchLevels_pred (priceCondition o) (sideLevels o book) o.quantity
    unfold matchOrder
    unfold sideLevels at this
    cases h : o.side <;> simpa [h] using this
  · have := matchLevels_taken (priceCondition o) (sideLevels o book) o.quantity
    unfold matchOrder sideLevels
    unfold sideLevels at this
    cases h : o.side <;> simpa [h] using this

/-! ## Order service (trading/services/order_service.py)

`OrderService.submit` runs inside a unit of work
(`AsyncpgTradingUnitOfWork`): repository writes commit on normal exit and
roll back when an exception escapes.  The embedding makes the writes and
the execution-stream publish explicit as an ordered effect list; `.error`
results model a raised domain exception, in which case no effect in the
list is committed (and, as the theorems show, the list is in fact empty:
every raise happens before the first write or publish). -/

inductive SubmitError where
  | orderValidation
  | insufficientBalance
  | insufficientPosition
deriving DecidableEq, Repr

inductive Effect where
  | upsertPosition (p : PositionRecord)
  | upsertAccount (a : AccountSnapshot)
  | createOrder (o : OrderRecord)
  | publishExec (e : ExecutionEvent)
deriving DecidableEq, Repr

/-- The single-user, single-instrument view of the stores `submit` touches,
plus the execution stream. -/
structure TradingState where
  account : Option AccountSnapshot
  position : Option PositionRecord
  orders : List OrderRecord
  published : List ExecutionEvent
deriving DecidableEq, Repr

/-- `position.quantity if position else 0` in `_validate_sell_quantity`. -/
def positionQty : Option PositionRecord → ℤ
  | some p => p.quantity
  | none => 0

/-- Prior average price of an optional position (`0` when absent, matching
the `prior_cost = 0.0` branch of `_apply_position_mutation`). -/
def positionAvg : Option PositionRecord → ℚ
  | some p => p.average_price
  | none => 0

/-- The `1e-9` cash tolerance in `OrderService._validate_balance`. -/
def cashTol : ℚ := 1 / 1000000000

/-- `OrderService._validate_balance`. -/
def validate_balance (account : AccountSnapshot) (required_cash : ℚ) :
    Except SubmitError Unit :=
  if account.cash_balance + cashTol < required_cash then
    .error .insufficientBalance
  else .ok ()

/-- `OrderService._validate_sell_quantity`. -/
def validate_sell_quantity (order_request : OrderRequest)
    (position : Option PositionRecord) : Except SubmitError Unit :=
  if positionQty position < order_request.quantity then
    .error .insufficientPosition
  else .ok ()

/-- `OrderService._apply_cash_mutation`. -/
def apply_cash_mutation (account : AccountSnapshot) (order_side : OrderSide)
    (total_consideration : ℚ) (timestamp : ℤ) : AccountSnapshot :=
  if total_consideration = 0 then { account with updated_at := timestamp }
  else
    { account with
      cash_balance := account.cash_balance +
        (if order_side = .BUY then -total_consideration else total_consideration),
      updated_at := timestamp }

/-- `OrderService._apply_position_mutation`. -/
def apply_position_mutation (order_request : OrderRequest)
    (existing_position : Option PositionRecord) (filled_quantity : ℤ)
    (total_consideration : ℚ) (timestamp : ℤ) :
    Except SubmitError PositionRecord :=
  if order_request.side = .BUY then
    let prior_qty := positionQty existing_position
    let prior_cost := positionAvg existing_position * (prior_qty : ℚ)
    let new_qty := prior_qty + filled_quantity
    .ok
      { user_id := order_request.user_id
        instrument_id := order_request.instrument_id
        quantity := new_qty
        average_price := (prior_cost + total_consideration) / ((max new_qty 1 : ℤ) : ℚ)
        updated_at := timestamp }
  else
    match existing_position with
    | none => .error .insufficientPosition
    | some pos =>
      if pos.quantity < filled_quantity then .error .insufficientPosition
      else
        .ok
          { user_id := order_request.user_id
            instrument_id := order_request.instrument_id
            quantity := pos.quantity - filled_quantity
            average_price := pos.average_price
            updated_at := timestamp }

/-- `OrderService._derive_status`. -/
def derive_status (filled_quantity residual : ℤ) : OrderStatus :=
  if filled_quantity = 0 then .NEW
  else if residual = 0 then .FILLED
  else .PARTIALLY_FILLED

/-- `OrderService.submit`, as the ordered list of repository writes and
stream publishes it performs together with its outcome.  The effect order
is the program order of the source: position upsert (when filled), account
upsert, order insert, then the execution publish (when filled). -/
def submit (order_request : OrderRequest) (book : ListedInstrumentBook)
    (order_id : String) (now : ℤ) (st : TradingState) :
    List Effect × Except SubmitError OrderRecord :=
  match st.account with
  | none => ([], .error .orderValidation)
  | some account =>
    let existing_position := st.position
    match (if order_request.side = .SELL then
            validate_sell_quantity order_request existing_position
          else .ok ()) with
    | .error e => ([], .error e)
    | .ok _ =>
      let fills := (matchOrder order_request book).1
      let residual := (matchOrder order_request book).2
      let filled_quantity := sumFillQty fills
      let total_consideration := sumConsideration fills
      match (if order_request.side = .BUY then
              validate_balance account total_consideration
            else .ok ()) with
      | .error e => ([], .error e)
      | .ok _ =>
        let updated_account :=
          apply_cash_mutation account order_request.side total_consideration now
        match (if 0 < filled_quantity then
                (apply_position_mutation order_request existing_position
                  filled_quantity total_consideration now).map some
              else .ok none) with
        | .error e => ([], .error e)
        | .ok updated_position =>
          let average_price :=
            if 0 < filled_quantity then some (total_consideration / (filled_quantity : ℚ))
            else none
          let order_record : OrderRecord :=
            { order_id := order_id
              user_id := order_request.user_id
              instrument_id := order_request.instrument_id
              side := order_request.side
              order_type := order_request.order_type
              quantity := order_request.quantity
              filled_quantity := filled_quantity
              limit_price := order_request.limit_price
              average_price := average_price
              status := derive_status filled_quantity residual
              time_in_force := order_request.time_in_force
              created_at := now
              updated_at := now }
          let positionEffects :=
            match updated_position with
            | some p => [Effect.upsertPosition p]
            | none => []
          let baseEffects := positionEffects ++
            [Effect.upsertAccount updated_account, Effect.createOrder order_record]
          let allEffects :=
            if 0 < filled_quantity then
              baseEffects ++
                [Effect.publishExec
                  { execution_id := order_id ++ "-exec"
                    order_id := order_id
                    user_id := order_request.user_id
                    instrument_id := order_request.instrument_id
                    side := order_request.side
                    quantity := filled_quantity
                    price := (average_price.getD 0)
                    timestamp := now }]
            else baseEffects
          (allEffects, .ok order_record)

/-- Committing one effect to the state. -/
def applyEffect (st : TradingState) : Effect → TradingState
  | .upsertPosition p => { st with position := some p }
  | .upsertAccount a => { st with account := some a }
  | .createOrder o => { st with orders := st.orders ++ [o] }
  | .publishExec e => { st with published := st.published ++ [e] }

/-- `submit` run under the unit of work: on normal return the writes are
committed in order; on a raised error nothing is committed (rollback). -/
def submitRun (order_request : OrderRequest) (book : ListedInstrumentBook)
    (order_id : String) (now : ℤ) (st : TradingState) :
    Except SubmitError (TradingState × OrderRecord) :=
  match submit order_request book order_id now st with
  | (effects, .ok record) => .ok (effects.foldl applyEffect st, record)
  | (_, .error e) => .error e

/-! ### Derived quantities of one submit (step 4 of `OrderService.submit`) -/

/-- `filled_quantity = sum(fill.quantity for fill in fills)`. -/
def filledOf (req : OrderRequest) (book : ListedInstrumentBook) : ℤ :=
  sumFillQty (matchOrder req book).1

/-- `total_consideration = sum(fill.price * fill.quantity for fill in fills)`. -/
def considerationOf (req : OrderRequest) (book : ListedInstrumentBook) : ℚ :=
  sumConsideration (matchOrder req book).1

/-- The residual quantity returned by the matching engine. -/
def residualOf (req : OrderRequest) (book : ListedInstrumentBook) : ℤ :=
  (matchOrder req book).2

/-- The `OrderRecord` that `OrderService.submit` constructs and persists. -/
def orderRecordOf (req : OrderRequest) (book : ListedInstrumentBook)
    (oid : String) (now : ℤ) : OrderRecord :=
  { order_id := oid
    user_id := req.user_id
    instrument_id := req.instrument_id
    side := req.side
    order_type := req.order_type
    quantity := req.quantity
    filled_quantity := filledOf req book
    limit_price := req.limit_price
    average_price :=
      if 0 < filledOf req book then
        some (considerationOf req book / (filledOf req book : ℚ))
      else none
    status := derive_status (filledOf req book) (residualOf req book)
    time_in_force := req.time_in_force
    created_at := now
    updated_at := now }

/-- The `ExecutionEvent` published when `filled_quantity > 0`. -/
def execEventOf (req : OrderRequest) (book : ListedInstrumentBook)
    (oid : String) (now : ℤ) : ExecutionEvent :=
  { execution_id := oid ++ "-exec"
    order_id := oid
    user_id := req.user_id
    instrument_id := req.instrument_id
    side := req.side
    quantity := filledOf req book
    price :=
      (if 0 < filledOf req book then
        some (considerationOf req book / (filledOf req book : ℚ))
      else none).getD 0
    timestamp := now }

/-! ### Branch-by-branch evaluation lemmas for `submit` -/

theorem submit_no_account (req : OrderRequest) (book : ListedInstrumentBook)
    (oid : String) (now : ℤ) (st : TradingState) (h : st.account = none) :
    submit req book oid now st = ([], .error .orderValidation) := by
  simp [submit, h]

theorem submit_sell_insufficient (req : OrderRequest) (book : ListedInstrumentBook)
    (oid : String) (now : ℤ) (st : TradingState) (a : AccountSnapshot)
    (hacc : st.account = some a) (hside : req.side = .SELL)
    (hlt : positionQty st.position < req.quantity) :
    submit req book oid now st = ([], .error .insufficientPosition) := by
  simp [submit, hacc, hside, validate_sell_quantity, hlt]

theorem submit_buy_insufficient (req : OrderRequest) (book : ListedInstrumentBook)
    (oid : String) (now : ℤ) (st : TradingState) (a : AccountSnapshot)
    (hacc : st.account = some a) (hside : req.side = .BUY)
    (hbal : a.cash_balance + cashTol < considerationOf req book) :
    submit req book oid now st = ([], .error .insufficientBalance) := by
  simp [submit, hacc, hside, validate_balance, considerationOf] at hbal ⊢
  simp [hbal]

theorem submit_ok_nofill (req : OrderRequest) (book : ListedInstrumentBook)
    (oid : String) (now : ℤ) (st : TradingState) (a : AccountSnapshot)
    (hacc : st.account = some a)
    (hsell : req.side = .SELL → req.quantity ≤ positionQty st.position)
    (hbuy : req.side = .BUY → considerationOf req book ≤ a.cash_balance + cashTol)
    (hnofill : ¬ 0 < filledOf req book) :
    submit req book oid now st =
      ([Effect.upsertAccount (apply_cash_mutation a req.side (considerationOf req book) now),
        Effect.createOrder (orderRecordOf req book oid now)],
       .ok (orderRecordOf req book oid now)) := by
  cases hside : req.side with
  | SELL =>
    have h1 : ¬ positionQty st.position < req.quantity := by
      have := hsell hside; omega
    simp only [filledOf] at hnofill
    simp [submit, hacc, hside, validate_sell_quantity, h1, hnofill,
      orderRecordOf, filledOf, considerationOf, residualOf]
  | BUY =>
    have h2 : ¬ a.cash_balance + cashTol < considerationOf req book := by
      have := hbuy hside; exact not_lt.mpr this
    simp only [considerationOf] at h2
    simp only [filledOf] at hnofill
    simp [submit, hacc, hside, validate_balance, h2, hnofill,
      orderRecordOf, filledOf, considerationOf, residualOf]

theorem submit_ok_fill (req : OrderRequest) (book : ListedInstrumentBook)
    (oid : String) (now : ℤ) (st : TradingState) (a : AccountSnapshot)
    (p : PositionRecord)
    (hacc : st.account = some a)
    (hsell : req.side = .SELL → req.quantity ≤ positionQty st.position)
    (hbuy : req.side = .BUY → considerationOf req book ≤ a.cash_balance + cashTol)
    (hfill : 0 < filledOf req book)
    (hmut : apply_position_mutation req st.position (filledOf req book)
      (considerationOf req book) now = .ok p) :
    submit req book oid now st =
      ([Effect.upsertPosition p,
        Effect.upsertAccount (apply_cash_mutation a req.side (considerationOf req book) now),
        Effect.createOrder (orderRecordOf req book oid now),
        Effect.publishExec (execEventOf req book oid now)],
       .ok (orderRecordOf req book oid now)) := by
  cases hside : req.side with
  | SELL =>
    have h1 : ¬ positionQty st.position < req.quantity := by
      have := hsell hside; omega
    simp only [filledOf, considerationOf] at hmut hfill
    simp [submit, hacc, hside, validate_sell_quantity, h1, hfill, hmut, Except.map,
      orderRecordOf, execEventOf, filledOf, considerationOf, residualOf]
  | BUY =>
    have h2 : ¬ a.cash_balance + cashTol < considerationOf req book := by
      have := hbuy hside; exact not_lt.mpr this
    simp only [considerationOf] at h2
    simp only [filledOf, considerationOf] at hmut hfill
    simp [submit, hacc, hside, validate_balance, h2, hfill, hmut, Except.map,
      orderRecordOf, execEventOf, filledOf, considerationOf, residualOf]

theorem apply_position_mutation_buy (req : OrderRequest)
    (existing : Option PositionRecord) (filled : ℤ) (cons : ℚ) (now : ℤ)
    (hside : req.side = .BUY) :
    apply_position_mutation req existing filled cons now = .ok
      { user_id := req.user_id
        instrument_id := req.instrument_id
        quantity := positionQty existing + filled
        average_price := (positionAvg existing * (positionQty existing : ℚ) + cons) /
          ((max (positionQty existing + filled) 1 : ℤ) : ℚ)
        updated_at := now } := by
  simp [apply_position_mutation, hside]

theorem apply_position_mutation_sell (req : OrderRequest)
    (pos : PositionRecord) (filled : ℤ) (cons : ℚ) (now : ℤ)
    (hside : req.side = .SELL) (hle : filled ≤ pos.quantity) :
    apply_position_mutation req (some pos) filled cons now = .ok
      { user_id := req.user_id
        instrument_id := req.instrument_id
        quantity := pos.quantity - filled
        average_price := pos.average_price
        updated_at := now } := by
  simp [apply_position_mutation, hside, not_lt.mpr hle]

/-- A SELL that passed `_validate_sell_quantity` has an existing position
covering the filled quantity, so `_apply_position_mutation` succeeds. -/
theorem sell_position_exists (req : OrderRequest) (book : ListedInstrumentBook)
    (st : TradingState) (hq : 0 < req.quantity)
    (hcov : req.quantity ≤ positionQty st.position) :
    ∃ pos, st.position = some pos ∧ filledOf req book ≤ pos.quantity := by
  cases hpos : st.position with
  | none => rw [hpos] at hcov; simp [positionQty] at hcov; omega
  | some pos =>
    refine ⟨pos, rfl, ?_⟩
    have h1 : filledOf req book ≤ req.quantity := sumFillQty_le req book (le_of_lt hq)
    rw [hpos] at hcov; simp [positionQty] at hcov; omega

/-- C2: `OrderService.submit` raises `InsufficientPosition` iff the order is
a SELL whose quantity exceeds the existing position quantity (0 when no
position exists), and raises `InsufficientBalance` iff the order is a BUY
whose total consideration exceeds `account.cash_balance + 1e-9`; on any
domain rejection the effect list is empty, so no account, position or order
state is persisted and no execution event is published (the unit of work
rolls back on error and every raise precedes the first write).  Stated for
a present account and a positive validated quantity, as the request and
account models guarantee. -/
theorem submit_domain_rejections (req : OrderRequest) (book : ListedInstrumentBook)
    (oid : String) (now : ℤ) (st : TradingState) (a : AccountSnapshot)
    (hacc : st.account = some a) (hq : 0 < req.quantity) :
    ((submit req book oid now st).2 = .error .insufficientPosition ↔
      req.side = .SELL ∧ positionQty st.position < req.quantity) ∧
    ((submit req book oid now st).2 = .error .insufficientBalance ↔
      req.side = .BUY ∧ a.cash_balance + cashTol < considerationOf req book) ∧
    (∀ e, (submit req book oid now st).2 = .error e →
      (submit req book oid now st).1 = []) := by
  cases hside : req.side with
  | SELL =>
    by_cases hlt : positionQty st.position < req.quantity
    · rw [submit_sell_insufficient req book oid now st a hacc hside hlt]
      simp [hside, hlt]
    · have hcov : req.quantity ≤ positionQty st.position := by omega
      by_cases hf : 0 < filledOf req book
      · obtain ⟨pos, hpos, hle⟩ := sell_position_exists req book st hq hcov
        have hmut : apply_position_mutation req st.position (filledOf req book)
            (considerationOf req book) now = .ok
              { user_id := req.user_id
                instrument_id := req.instrument_id
                quantity := pos.quantity - filledOf req book
                average_price := pos.average_price
                updated_at := now } := by
          rw [hpos]
          exact apply_position_mutation_sell req pos (filledOf req book)
            (considerationOf req book) now hside hle
        rw [submit_ok_fill req book oid now st a _ hacc (fun _ => hcov)
          (by intro hb; rw [hside] at hb; cases hb) hf hmut]
        simp [hside, hlt]
      · rw [submit_ok_nofill req book oid now st a hacc (fun _ => hcov)
          (by intro hb; rw [hside] at hb; cases hb) hf]
        simp [hside, hlt]
  | BUY =>
    have hnotsell : req.side = .SELL → req.quantity ≤ positionQty st.position := by
      intro hs; rw [hside] at hs; cases hs
    by_cases hbal : a.cash_balance + cashTol < considerationOf req book
    · rw [submit_buy_insufficient req book oid now st a hacc hside hbal]
      simp [hside, hbal]
    · have hok : considerationOf req book ≤ a.cash_balance + cashTol :=
        not_lt.mp hbal
      by_cases hf : 0 < filledOf req book
      · have hmut := apply_position_mutation_buy req st.position (filledOf req book)
          (considerationOf req book) now hside
        rw [submit_ok_fill req book oid now st a _ hacc hnotsell (fun _ => hok) hf hmut]
        simp [hside, hbal]
      · rw [submit_ok_nofill req book oid now st a hacc hnotsell (fun _ => hok) hf]
        simp [hside, hbal]

/-- Full characterisation of the state committed by a successful submit. -/
theorem submitRun_ok_state (req : OrderRequest) (book : ListedInstrumentBook)
    (oid : String) (now : ℤ) (st : TradingState) (a : AccountSnapshot)
    (st' : TradingState) (rec : OrderRecord)
    (hacc : st.account = some a) (hq : 0 < req.quantity)
    (hrun : submitRun req book oid now st = .ok (st', rec)) :
    rec = orderRecordOf req book oid now ∧
    st'.account = some (apply_cash_mutation a req.side (considerationOf req book) now) ∧
    st'.orders = st.orders ++ [rec] ∧
    (0 < filledOf req book →
      (∃ p, apply_position_mutation req st.position (filledOf req book)
          (considerationOf req book) now = .ok p ∧ st'.position = some p) ∧
      st'.published = st.published ++ [execEventOf req book oid now]) ∧
    (¬ 0 < filledOf req book →
      st'.position = st.position ∧ st'.published = st.published) := by
  have hsell : req.side = .SELL → req.quantity ≤ positionQty st.position := by
    intro hside
    by_contra hlt
    rw [submitRun, submit_sell_insufficient req book oid now st a hacc hside (by omega)]
      at hrun
    cases hrun
  have hbuy : req.side = .BUY → considerationOf req book ≤ a.cash_balance + cashTol := by
    intro hside
    by_contra hgt
    rw [submitRun, submit_buy_insufficient req book oid now st a hacc hside (not_le.mp hgt)]
      at hrun
    cases hrun
  by_cases hf : 0 < filledOf req book
  · have hmut : ∃ p, apply_position_mutation req st.position (filledOf req book)
        (considerationOf req book) now = .ok p := by
      cases hside : req.side with
      | BUY => exact ⟨_, apply_position_mutation_buy req st.position _ _ now hside⟩
      | SELL =>
        obtain ⟨pos, hpos, hle⟩ := sell_position_exists req book st hq (hsell hside)
        refine ⟨{ user_id := req.user_id
                  instrument_id := req.instrument_id
                  quantity := pos.quantity - filledOf req book
                  average_price := pos.average_price
                  updated_at := now }, ?_⟩
        rw [hpos]
        exact apply_position_mutation_sell req pos _ _ now hside hle
    obtain ⟨p, hp⟩ := hmut
    rw [submitRun, submit_ok_fill req book oid now st a p hacc hsell hbuy hf hp] at hrun
    have hst' : st' = ((([Effect.upsertPosition p,
        Effect.upsertAccount (apply_cash_mutation a req.side (considerationOf req book) now),
        Effect.createOrder (orderRecordOf req book oid now),
        Effect.publishExec (execEventOf req book oid now)] : List Effect).foldl
          applyEffect st)) ∧ rec = orderRecordOf req book oid now := by
      cases hrun; exact ⟨rfl, rfl⟩
    obtain ⟨hst, hrec⟩ := hst'
    subst hst
    refine ⟨hrec, ?_, ?_, fun _ => ⟨⟨p, hp, ?_⟩, ?_⟩, fun h => absurd hf h⟩ <;>
      simp [applyEffect, hrec]
  · rw [submitRun, submit_ok_nofill req book oid now st a hacc hsell hbuy hf] at hrun
    have hst' : st' = (([Effect.upsertAccount
        (apply_cash_mutation a req.side (considerationOf req book) now),
        Effect.createOrder (orderRecordOf req book oid now)] : List Effect).foldl
          applyEffect st) ∧ rec = orderRecordOf req book oid now := by
      cases hrun; exact ⟨rfl, rfl⟩
    obtain ⟨hst, hrec⟩ := hst'
    subst hst
    refine ⟨hrec, ?_, ?_, fun h => absurd h hf, fun _ => ⟨?_, ?_⟩⟩ <;>
      simp [applyEffect, hrec]

/-- C3: For every successful submit that fills a positive quantity, the
persisted position moves by exactly the filled quantity (up for BUY, down
for SELL); on BUY the new average price is the weighted average
`(prior_qty·prior_avg + consideration)/new_qty`, and on SELL the average
price is preserved unchanged, including when the position goes flat.
Stated under the persisted-model invariants: account present, validated
positive order quantity, non-negative prior position quantity. -/
theorem submit_position_conservation (req : OrderRequest) (book : ListedInstrumentBook)
    (oid : String) (now : ℤ) (st : TradingState) (a : AccountSnapshot)
    (st' : TradingState) (rec : OrderRecord)
    (hacc : st.account = some a) (hq : 0 < req.quantity)
    (hpos0 : 0 ≤ positionQty st.position)
    (hrun : submitRun req book oid now st = .ok (st', rec))
    (hfill : 0 < rec.filled_quantity) :
    ∃ p, st'.position = some p ∧
      (req.side = .BUY →
        p.quantity - positionQty st.position = rec.filled_quantity ∧
        p.average_price = ((positionQty st.position : ℚ) * positionAvg st.position +
          considerationOf req book) / (p.quantity : ℚ)) ∧
      (req.side = .SELL →
        positionQty st.position - p.quantity = rec.filled_quantity ∧
        p.average_price = positionAvg st.position) := by
  obtain ⟨hrec, -, -, hfillst, -⟩ :=
    submitRun_ok_state req book oid now st a st' rec hacc hq hrun
  have hrf : rec.filled_quantity = filledOf req book := by rw [hrec]; rfl
  have hfilled : 0 < filledOf req book := by omega
  obtain ⟨⟨p, hpmut, hp'⟩, -⟩ := hfillst hfilled
  refine ⟨p, hp', ?_, ?_⟩
  · intro hside
    rw [apply_position_mutation_buy req st.position (filledOf req book)
      (considerationOf req book) now hside] at hpmut
    have hpeq := Except.ok.inj hpmut
    subst hpeq
    have hmax : max (positionQty st.position + filledOf req book) 1 =
        positionQty st.position + filledOf req book := by omega
    refine ⟨by simp; omega, ?_⟩
    simp [hmax]
    ring
  · intro hside
    cases hpos : st.position with
    | none =>
      rw [hpos] at hpmut
      simp [apply_position_mutation, hside] at hpmut
    | some pos =>
      rw [hpos] at hpmut
      by_cases hlt : pos.quantity < filledOf req book
      · simp [apply_position_mutation, hside, hlt] at hpmut
      · rw [apply_position_mutation_sell req pos (filledOf req book)
          (considerationOf req book) now hside (by omega)] at hpmut
        have hpeq := Except.ok.inj hpmut
        subst hpeq
        simp [positionQty, positionAvg]
        omega

/-- C4: For every successful submit, the persisted account's cash balance
changes by exactly `−consideration` for BUY and `+consideration` for SELL;
when the consideration is zero the cash balance is unchanged while
`updated_at` is refreshed to the submit timestamp, and no other account
field changes. -/
theorem submit_cash_conservation (req : OrderRequest) (book : ListedInstrumentBook)
    (oid : String) (now : ℤ) (st : TradingState) (a : AccountSnapshot)
    (st' : TradingState) (rec : OrderRecord)
    (hacc : st.account = some a) (hq : 0 < req.quantity)
    (hrun : submitRun req book oid now st = .ok (st', rec)) :
    ∃ a', st'.account = some a' ∧
      (req.side = .BUY → a'.cash_balance = a.cash_balance - considerationOf req book) ∧
      (req.side = .SELL → a'.cash_balance = a.cash_balance + considerationOf req book) ∧
      (considerationOf req book = 0 → a'.cash_balance = a.cash_balance) ∧
      a'.updated_at = now ∧ a'.user_id = a.user_id ∧
      a'.base_currency = a.base_currency ∧ a'.margin_allowed = a.margin_allowed := by
  obtain ⟨-, haccount, -, -, -⟩ :=
    submitRun_ok_state req book oid now st a st' rec hacc hq hrun
  refine ⟨apply_cash_mutation a req.side (considerationOf req book) now, haccount,
    ?_, ?_, ?_, ?_, ?_, ?_, ?_⟩ <;>
    unfold apply_cash_mutation <;>
    by_cases hc : considerationOf req book = 0 <;>
    simp [hc] <;> intro hside <;> simp [hside] <;> ring

/-- C5: For every successful submit the returned order record has
`average_price = consideration/filled` when `filled > 0` and none when
`filled = 0`, and its status is NEW when `filled = 0`, FILLED when
`filled > 0` and `residual = 0`, and PARTIALLY_FILLED otherwise. -/
theorem submit_order_record_law (req : OrderRequest) (book : ListedInstrumentBook)
    (oid : String) (now : ℤ) (st : TradingState) (a : AccountSnapshot)
    (st' : TradingState) (rec : OrderRecord)
    (hacc : st.account = some a) (hq : 0 < req.quantity)
    (hrun : submitRun req book oid now st = .ok (st', rec)) :
    (0 < rec.filled_quantity →
      rec.average_price = some (considerationOf req book / (rec.filled_quantity : ℚ))) ∧
    (rec.filled_quantity = 0 → rec.average_price = none) ∧
    (rec.filled_quantity = 0 → rec.status = .NEW) ∧
    (0 < rec.filled_quantity → residualOf req book = 0 → rec.status = .FILLED) ∧
    (0 < rec.filled_quantity → residualOf req book ≠ 0 →
      rec.status = .PARTIALLY_FILLED) := by
  obtain ⟨hrec, -, -, -, -⟩ :=
    submitRun_ok_state req book oid now st a st' rec hacc hq hrun
  have hrf : rec.filled_quantity = filledOf req book := by rw [hrec]; rfl
  subst hrec
  refine ⟨?_, ?_, ?_, ?_, ?_⟩
  · intro hf
    rw [hrf] at hf ⊢
    simp [orderRecordOf, hf]
  · intro h0
    rw [hrf] at h0
    simp [orderRecordOf, h0]
  · intro h0
    rw [hrf] at h0
    simp [orderRecordOf, derive_status, h0]
  · intro hf hres
    rw [hrf] at hf
    simp [orderRecordOf, derive_status, hres, (show filledOf req book ≠ 0 by omega)]
  · intro hf hres
    rw [hrf] at hf
    simp [orderRecordOf, derive_status, hres, (show filledOf req book ≠ 0 by omega)]

/-- C9: Every position record persisted by `OrderService.submit` has a
non-negative quantity, provided the prior persisted position did: the
pre-trade SELL check bounds the order quantity by the owned quantity and
`_apply_position_mutation` independently rejects any SELL execution
exceeding it, so no submit drives a persisted position negative. -/
theorem submit_position_nonneg (req : OrderRequest) (book : ListedInstrumentBook)
    (oid : String) (now : ℤ) (st : TradingState) (a : AccountSnapshot)
    (st' : TradingState) (rec : OrderRecord)
    (hacc : st.account = some a) (hq : 0 < req.quantity)
    (hpos0 : 0 ≤ positionQty st.position)
    (hrun : submitRun req book oid now st = .ok (st', rec)) :
    ∀ p, st'.position = some p → 0 ≤ p.quantity := by
  intro p hp
  obtain ⟨-, -, -, hfillst, hnofill⟩ :=
    submitRun_ok_state req book oid now st a st' rec hacc hq hrun
  by_cases hf : 0 < filledOf req book
  · obtain ⟨⟨q, hqmut, hq'⟩, -⟩ := hfillst hf
    rw [hp] at hq'
    have hqp := Option.some.inj hq'
    subst hqp
    cases hside : req.side with
    | BUY =>
      rw [apply_position_mutation_buy req st.position (filledOf req book)
        (considerationOf req book) now hside] at hqmut
      have := Except.ok.inj hqmut
      subst this
      simp
      omega
    | SELL =>
      cases hpos : st.position with
      | none =>
        rw [hpos] at hqmut
        simp [apply_position_mutation, hside] at hqmut
      | some pos =>
        rw [hpos] at hqmut
        by_cases hlt : pos.quantity < filledOf req book
        · simp [apply_position_mutation, hside, hlt] at hqmut
        · rw [apply_position_mutation_sell req pos (filledOf req book)
            (considerationOf req book) now hside (by omega)] at hqmut
          have := Except.ok.inj hqmut
          subst this
          simp
          omega
  · obtain ⟨hsame, -⟩ := hnofill hf
    rw [hp] at hsame
    have : positionQty st.position = p.quantity := by rw [← hsame]; rfl
    omega

/-! ### Concrete fixtures (spec §8 scenarios 2–4) used by the witnesses -/

def exAccount : AccountSnapshot :=
  { user_id := "u1", cash_balance := 100000, base_currency := "USD",
    margin_allowed := false, updated_at := 0 }

def exState : TradingState :=
  { account := some exAccount, position := none, orders := [], published := [] }

def exBook : ListedInstrumentBook :=
  { instrument_id := "EQ1",
    bids := [(199/2, 100), (99, 200)],
    asks := [(201/2, 150), (101, 100)],
    last_updated := 0 }

def exBuyReq : OrderRequest :=
  { user_id := "u1", instrument_id := "EQ1", side := .BUY, quantity := 180,
    order_type := .LIMIT, limit_price := some 101, time_in_force := "GTC" }

def exSellReq : OrderRequest :=
  { user_id := "u1", instrument_id := "EQ1", side := .SELL, quantity := 10,
    order_type := .LIMIT, limit_price := some 99, time_in_force := "GTC" }

def exBuyRecord : OrderRecord :=
  { order_id := "o1", user_id := "u1", instrument_id := "EQ1", side := .BUY,
    order_type := .LIMIT, quantity := 180, filled_quantity := 180,
    limit_price := some 101, average_price := some (1207/12),
    status := .FILLED, time_in_force := "GTC", created_at := 7, updated_at := 7 }

def exBuyFinalState : TradingState :=
  { account := some { user_id := "u1", cash_balance := 81895,
                      base_currency := "USD", margin_allowed := false, updated_at := 7 },
    position := some { user_id := "u1", instrument_id := "EQ1", quantity := 180,
                       average_price := 1207/12, updated_at := 7 },
    orders := [exBuyRecord],
    published := [{ execution_id := "o1-exec", order_id := "o1", user_id := "u1",
                    instrument_id := "EQ1", side := .BUY, quantity := 180, price := 1207/12,
                    timestamp := 7 }] }

def exSellState : TradingState :=
  { account := some exAccount,
    position := some { user_id := "u1", instrument_id := "EQ1", quantity := 30,
                       average_price := 95, updated_at := 0 },
    orders := [], published := [] }

def exSellRecord : OrderRecord :=
  { order_id := "o3", user_id := "u1", instrument_id := "EQ1", side := .SELL,
    order_type := .LIMIT, quantity := 10, filled_quantity := 10,
    limit_price := some 99, average_price := some (199/2),
    status := .FILLED, time_in_force := "GTC", created_at := 7, updated_at := 7 }

def exSellFinalState : TradingState :=
  { account := some { user_id := "u1", cash_balance := 100995,
                      base_currency := "USD", margin_allowed := false, updated_at := 7 },
    position := some { user_id := "u1", instrument_id := "EQ1", quantity := 20,
                       average_price := 95, updated_at := 7 },
    orders := [exSellRecord],
    published := [{ execution_id := "o3-exec", order_id := "o3", user_id := "u1",
                    instrument_id := "EQ1", side := .SELL, quantity := 10, price := 199/2,
                    timestamp := 7 }] }

/-- Witness for C2: selling 10 with no position raises `InsufficientPosition`. -/
theorem submit_domain_rejections_witness :
    0 < exSellReq.quantity ∧
    (submit exSellReq exBook "o2" 7 exState).2 = .error .insufficientPosition :=
  ⟨by decide,
   (submit_domain_rejections exSellReq exBook "o2" 7 exState exAccount rfl
     (by decide)).1.mpr ⟨rfl, by decide⟩⟩

/-- Witness for C3: the spec §8 scenario-2 BUY fills 180 and creates a
position of 180 at the weighted average price. -/
theorem submit_position_conservation_witness :
    0 < exBuyReq.quantity ∧
    ∃ p, exBuyFinalState.position = some p ∧
      (exBuyReq.side = .BUY →
        p.quantity - positionQty exState.position = exBuyRecord.filled_quantity ∧
        p.average_price = ((positionQty exState.position : ℚ) *
          positionAvg exState.position + considerationOf exBuyReq exBook) /
          (p.quantity : ℚ)) ∧
      (exBuyReq.side = .SELL →
        positionQty exState.position - p.quantity = exBuyRecord.filled_quantity ∧
        p.average_price = positionAvg exState.position) :=
  ⟨by decide,
   submit_position_conservation exBuyReq exBook "o1" 7 exState exAccount
     exBuyFinalState exBuyRecord rfl (by decide) (by decide)
     (by
       norm_num [submitRun, submit, validate_sell_quantity, validate_balance, cashTol,
         apply_cash_mutation, apply_position_mutation, derive_status,
         matchOrder, matchLevels, priceCondition, sumFillQty, sumConsideration,
         positionQty, positionAvg, applyEffect, Except.map,
         exBook, exBuyReq, exState, exAccount, exBuyFinalState, exBuyRecord]
       simp +decide [applyEffect]) (by decide)⟩

/-- Witness for C4: the scenario-3-style SELL of 10 at 99.5 adds 995 cash. -/
theorem submit_cash_conservation_witness :
    0 < exSellReq.quantity ∧
    ∃ a', exSellFinalState.account = some a' ∧
      (exSellReq.side = .BUY →
        a'.cash_balance = exAccount.cash_balance - considerationOf exSellReq exBook) ∧
      (exSellReq.side = .SELL →
        a'.cash_balance = exAccount.cash_balance + considerationOf exSellReq exBook) ∧
      (considerationOf exSellReq exBook = 0 →
        a'.cash_balance = exAccount.cash_balance) ∧
      a'.updated_at = 7 ∧ a'.user_id = exAccount.user_id ∧
      a'.base_currency = exAccount.base_currency ∧
      a'.margin_allowed = exAccount.margin_allowed :=
  ⟨by decide,
   submit_cash_conservation exSellReq exBook "o3" 7 exSellState exAccount
     exSellFinalState exSellRecord (by rfl) (by decide)
     (by
       norm_num [submitRun, submit, validate_sell_quantity, validate_balance, cashTol,
         apply_cash_mutation, apply_position_mutation, derive_status,
         matchOrder, matchLevels, priceCondition, sumFillQty, sumConsideration,
         positionQty, positionAvg, applyEffect, Except.map,
         exBook, exSellReq, exSellState, exAccount, exSellFinalState, exSellRecord]
       simp +decide [applyEffect]
       all_goals norm_num)⟩

/-- Witness for C5: the scenario-2 BUY record has average price
`18105/180 = 1207/12` and status FILLED. -/
theorem submit_order_record_law_witness :
    0 < exBuyReq.quantity ∧
    ((0 < exBuyRecord.filled_quantity →
      exBuyRecord.average_price =
        some (considerationOf exBuyReq exBook / (exBuyRecord.filled_quantity : ℚ))) ∧
    (exBuyRecord.filled_quantity = 0 → exBuyRecord.average_price = none) ∧
    (exBuyRecord.filled_quantity = 0 → exBuyRecord.status = .NEW) ∧
    (0 < exBuyRecord.filled_quantity → residualOf exBuyReq exBook = 0 →
      exBuyRecord.status = .FILLED) ∧
    (0 < exBuyRecord.filled_quantity → residualOf exBuyReq exBook ≠ 0 →
      exBuyRecord.status = .PARTIALLY_FILLED)) :=
  ⟨by decide,
   submit_order_record_law exBuyReq exBook "o1" 7 exState exAccount
     exBuyFinalState exBuyRecord rfl (by decide)
     (by
       norm_num [submitRun, submit, validate_sell_quantity, validate_balance, cashTol,
         apply_cash_mutation, apply_position_mutation, derive_status,
         matchOrder, matchLevels, priceCondition, sumFillQty, sumConsideration,
         positionQty, positionAvg, applyEffect, Except.map,
         exBook, exBuyReq, exState, exAccount, exBuyFinalState, exBuyRecord]
       simp +decide [applyEffect])⟩

/-- Witness for C9: after selling 10 out of 30, the persisted position
quantity 20 is non-negative. -/
theorem submit_position_nonneg_witness :
    0 < exSellReq.quantity ∧
    ∀ p, exSellFinalState.position = some p → 0 ≤ p.quantity :=
  ⟨by decide,
   submit_position_nonneg exSellReq exBook "o3" 7 exSellState exAccount
     exSellFinalState exSellRecord (by rfl) (by decide) (by decide)
     (by
       norm_num [submitRun, submit, validate_sell_quantity, validate_balance, cashTol,
         apply_cash_mutation, apply_position_mutation, derive_status,
         matchOrder, matchLevels, priceCondition, sumFillQty, sumConsideration,
         positionQty, positionAvg, applyEffect, Except.map,
         exBook, exSellReq, exSellState, exAccount, exSellFinalState, exSellRecord]
       simp +decide [applyEffect]
       all_goals norm_num)⟩

/-! ## Rounding (Python `round(x, 6)`) used by the market-data generators -/

/-- Round to the nearest integer with ties to even, the rounding applied by
Python's `round`, idealised over exact rationals. -/
def rhe (x : ℚ) : ℤ :=
  if x - ⌊x⌋ < 1/2 then ⌊x⌋
  else if 1/2 < x - ⌊x⌋ then ⌊x⌋ + 1
  else if ⌊x⌋ % 2 = 0 then ⌊x⌋ else ⌊x⌋ + 1

/-- Python `round(x, 6)` over exact rationals. -/
def round6 (x : ℚ) : ℚ := (rhe (x * 1000000) : ℚ) / 1000000

theorem rhe_abs_le (x : ℚ) : |(rhe x : ℚ) - x| ≤ 1/2 := by
  have h1 : (⌊x⌋ : ℚ) ≤ x := Int.floor_le x
  have h2 : x < ⌊x⌋ + 1 := Int.lt_floor_add_one x
  unfold rhe
  by_cases hlt : x - ⌊x⌋ < 1/2
  · rw [if_pos hlt, abs_le]
    constructor <;> linarith
  · rw [if_neg hlt]
    by_cases hgt : 1/2 < x - (⌊x⌋ : ℚ)
    · rw [if_pos hgt, abs_le]
      push_cast
      constructor <;> linarith
    · by_cases hev : ⌊x⌋ % 2 = 0
      · rw [if_neg hgt, if_pos hev, abs_le]
        constructor <;> linarith
      · rw [if_neg hgt, if_neg hev, abs_le]
        push_cast
        constructor <;> linarith

theorem round6_abs_le (x : ℚ) : |round6 x - x| ≤ 1/2000000 := by
  have h := rhe_abs_le (x * 1000000)
  have key : round6 x - x = ((rhe (x * 1000000) : ℚ) - x * 1000000) / 1000000 := by
    unfold round6; ring
  rw [key, abs_div]
  rw [show |(1000000 : ℚ)| = 1000000 by norm_num]
  rw [div_le_iff₀ (by norm_num : (0:ℚ) < 1000000)]
  linarith

theorem round6_lt_round6 (a b : ℚ) (h : 1/1000000 < b - a) : round6 a < round6 b := by
  have ha := abs_le.mp (round6_abs_le a)
  have hb := abs_le.mp (round6_abs_le b)
  linarith [ha.1, ha.2, hb.1, hb.2]

theorem round6_pos (x : ℚ) (h : 1/2000000 < x) : 0 < round6 x := by
  have hx := abs_le.mp (round6_abs_le x)
  linarith [hx.1]

end TradingBoard

namespace TradingBoard

/-! ## Ladder order-book generator (market_data/generators/order_book.py) -/

/-- `OrderBookDepthConfig`; `valid` captures its `__post_init__` checks. -/
structure OrderBookDepthConfig where
  levels : ℕ
  tick_size : ℚ
  base_quantity : ℚ
  quantity_decay : ℚ
  price_noise : ℚ
deriving DecidableEq, Repr

def OrderBookDepthConfig.valid (c : OrderBookDepthConfig) : Prop :=
  0 < c.levels ∧ 0 < c.tick_size ∧ 0 < c.base_quantity ∧
    0 < c.quantity_decay ∧ c.quantity_decay ≤ 1 ∧ 0 ≤ c.price_noise

instance (c : OrderBookDepthConfig) : Decidable c.valid := by
  unfold OrderBookDepthConfig.valid; infer_instance

/-- `market_data.models.OrderBookLevel` (quantity validated positive). -/
structure OrderBookLevel where
  price : ℚ
  quantity : ℚ
deriving DecidableEq, Repr

/-- `market_data.models.OrderBookSnapshot`. -/
structure OrderBookSnapshot where
  instrument_id : String
  timestamp : ℤ
  bids : List OrderBookLevel
  asks : List OrderBookLevel
deriving DecidableEq, Repr

/-- `_is_descending`: adjacent prices non-increasing. -/
def is_descending : List ℚ → Bool
  | p₁ :: p₂ :: rest => decide (p₂ ≤ p₁) && is_descending (p₂ :: rest)
  | _ => true

/-- `_is_ascending`: adjacent prices non-decreasing. -/
def is_ascending : List ℚ → Bool
  | p₁ :: p₂ :: rest => decide (p₁ ≤ p₂) && is_ascending (p₂ :: rest)
  | _ => true

/-- The pydantic validation run when an `OrderBookSnapshot` is constructed:
every level quantity positive (`OrderBookLevel`, `gt=0`), bids sorted
descending, asks ascending, and best bid strictly below best ask when both
sides are non-empty (`validate_depth`). -/
def snapshotValid (bids asks : List OrderBookLevel) : Bool :=
  bids.all (fun l => decide (0 < l.quantity)) &&
  asks.all (fun l => decide (0 < l.quantity)) &&
  is_descending (bids.map (·.price)) &&
  is_ascending (asks.map (·.price)) &&
  bids.head?.all (fun b => asks.head?.all (fun a => decide (b.price < a.price)))

/-- The bid ladder built by the level loop of
`LadderOrderBookGenerator.build`: for `level = 0..levels-1`,
`price = round(mid − tick_size·(level+1) − noise, 6)` with the noise draw
consumed only when `price_noise` is non-zero, and
`quantity = round(base_quantity · quantity_decay^level, 6)`. -/
def ladderBids (cfg : OrderBookDepthConfig) (noise : ℕ → ℚ) (mid_price : ℚ) :
    List OrderBookLevel :=
  (List.range cfg.levels).map (fun (level : ℕ) =>
    { price := round6 (mid_price - cfg.tick_size * ((level : ℚ) + 1) -
        (if cfg.price_noise ≠ 0 then noise level else 0))
      quantity := round6 (cfg.base_quantity * cfg.quantity_decay ^ level) })

/-- The ask ladder: `price = round(mid + tick_size·(level+1) + noise, 6)`,
sharing each level's noise draw with the bid side, per source. -/
def ladderAsks (cfg : OrderBookDepthConfig) (noise : ℕ → ℚ) (mid_price : ℚ) :
    List OrderBookLevel :=
  (List.range cfg.levels).map (fun (level : ℕ) =>
    { price := round6 (mid_price + cfg.tick_size * ((level : ℚ) + 1) +
        (if cfg.price_noise ≠ 0 then noise level else 0))
      quantity := round6 (cfg.base_quantity * cfg.quantity_decay ^ level) })

/-- `LadderOrderBookGenerator.build`.  The generator's `random.Random`
draws are abstracted as the stream `noise`.  A pydantic `ValidationError`
raised while constructing the levels or the snapshot (or the `mid_price`
guard) is an `.error` result; the source contains no clamping. -/
def build (instrument_id : String) (cfg : OrderBookDepthConfig)
    (noise : ℕ → ℚ) (mid_price : ℚ) (timestamp : ℤ) :
    Except String OrderBookSnapshot :=
  if mid_price ≤ 0 then .error "mid_price must be positive"
  else if snapshotValid (ladderBids cfg noise mid_price) (ladderAsks cfg noise mid_price) then
    .ok { instrument_id := instrument_id, timestamp := timestamp,
          bids := ladderBids cfg noise mid_price,
          asks := ladderAsks cfg noise mid_price }
  else .error "snapshot validation failed"

theorem is_descending_iff : ∀ l : List ℚ, is_descending l = true ↔ List.Chain' (· ≥ ·) l
  | [] => by simp [is_descending]
  | [a] => by simp [is_descending]
  | a :: b :: l => by
    rw [is_descending, List.chain'_cons, Bool.and_eq_true, decide_eq_true_eq,
      is_descending_iff (b :: l)]

theorem is_ascending_iff : ∀ l : List ℚ, is_ascending l = true ↔ List.Chain' (· ≤ ·) l
  | [] => by simp [is_ascending]
  | [a] => by simp [is_ascending]
  | a :: b :: l => by
    rw [is_ascending, List.chain'_cons, Bool.and_eq_true, decide_eq_true_eq,
      is_ascending_iff (b :: l)]

/-- A ladder generated from a strictly decreasing price function has
strictly descending prices. -/
theorem ladder_chain_gt (g q : ℕ → ℚ) (n : ℕ) (hg : ∀ m, g (m + 1) < g m) :
    List.Chain' (· > ·)
      (((List.range n).map (fun k =>
        ({ price := g k, quantity := q k } : OrderBookLevel))).map (·.price)) := by
  rw [List.map_map, List.chain'_map]
  cases n with
  | zero => simp
  | succ n =>
    rw [List.chain'_range_succ]
    intro m _
    exact hg m

theorem ladder_chain_lt (g q : ℕ → ℚ) (n : ℕ) (hg : ∀ m, g m < g (m + 1)) :
    List.Chain' (· < ·)
      (((List.range n).map (fun k =>
        ({ price := g k, quantity := q k } : OrderBookLevel))).map (·.price)) := by
  rw [List.map_map, List.chain'_map]
  cases n with
  | zero => simp
  | succ n =>
    rw [List.chain'_range_succ]
    intro m _
    exact hg m

/-- Amended C6: with zero noise, tick size above the 1e-6 rounding grid and
deepest-level quantity above half a grid step, `build` succeeds and the
snapshot's bid prices are strictly descending, ask prices strictly
ascending, and best bid strictly below best ask. -/
theorem build_ladder_sorted (iid : String) (cfg : OrderBookDepthConfig)
    (noise : ℕ → ℚ) (mid : ℚ) (ts : ℤ)
    (hvalid : cfg.valid) (hnoise : cfg.price_noise = 0)
    (htick : 1/1000000 < cfg.tick_size)
    (hqty : 1/2000000 < cfg.base_quantity * cfg.quantity_decay ^ (cfg.levels - 1))
    (hmid : 0 < mid) :
    ∃ snap, build iid cfg noise mid ts = .ok snap ∧
      snap.bids.length = cfg.levels ∧
      snap.asks.length = cfg.levels ∧
      List.Chain' (· > ·) (snap.bids.map (·.price)) ∧
      List.Chain' (· < ·) (snap.asks.map (·.price)) ∧
      (∀ b a, snap.bids.head? = some b → snap.asks.head? = some a →
        b.price < a.price) := by
  obtain ⟨hlev, htickpos, hbase, hdec0, hdec1, -⟩ := hvalid
  have hqpos : ∀ k, k < cfg.levels →
      0 < round6 (cfg.base_quantity * cfg.quantity_decay ^ k) := by
    intro k hk
    apply round6_pos
    have hdk : cfg.quantity_decay ^ (cfg.levels - 1) ≤ cfg.quantity_decay ^ k :=
      pow_le_pow_of_le_one hdec0.le hdec1 (by omega)
    nlinarith
  have hbidlt : ∀ m : ℕ,
      round6 (mid - cfg.tick_size * (((m + 1 : ℕ) : ℚ) + 1)) <
        round6 (mid - cfg.tick_size * ((m : ℚ) + 1)) := by
    intro m
    apply round6_lt_round6
    push_cast
    have : mid - cfg.tick_size * ((m : ℚ) + 1) -
        (mid - cfg.tick_size * ((m : ℚ) + 1 + 1)) = cfg.tick_size := by ring
    linarith [this]
  have hasklt : ∀ m : ℕ,
      round6 (mid + cfg.tick_size * ((m : ℚ) + 1)) <
        round6 (mid + cfg.tick_size * (((m + 1 : ℕ) : ℚ) + 1)) := by
    intro m
    apply round6_lt_round6
    push_cast
    have : mid + cfg.tick_size * ((m : ℚ) + 1 + 1) -
        (mid + cfg.tick_size * ((m : ℚ) + 1)) = cfg.tick_size := by ring
    linarith [this]
  have hbest :
      round6 (mid - cfg.tick_size * ((0 : ℚ) + 1)) <
        round6 (mid + cfg.tick_size * ((0 : ℚ) + 1)) := by
    apply round6_lt_round6
    have : mid + cfg.tick_size * ((0 : ℚ) + 1) -
        (mid - cfg.tick_size * ((0 : ℚ) + 1)) = 2 * cfg.tick_size := by ring
    linarith [this]
  have hBeq : ladderBids cfg noise mid = (List.range cfg.levels).map (fun (k : ℕ) =>
      ({ price := round6 (mid - cfg.tick_size * ((k : ℚ) + 1))
         quantity := round6 (cfg.base_quantity * cfg.quantity_decay ^ k) }
        : OrderBookLevel)) := by
    simp [ladderBids, hnoise]
  have hAeq : ladderAsks cfg noise mid = (List.range cfg.levels).map (fun (k : ℕ) =>
      ({ price := round6 (mid + cfg.tick_size * ((k : ℚ) + 1))
         quantity := round6 (cfg.base_quantity * cfg.quantity_decay ^ k) }
        : OrderBookLevel)) := by
    simp [ladderAsks, hnoise]
  have hchainB : List.Chain' (· > ·) ((ladderBids cfg noise mid).map (·.price)) := by
    rw [hBeq]
    exact ladder_chain_gt _ _ _ hbidlt
  have hchainA : List.Chain' (· < ·) ((ladderAsks cfg noise mid).map (·.price)) := by
    rw [hAeq]
    exact ladder_chain_lt _ _ _ hasklt
  obtain ⟨n, hn⟩ : ∃ n, cfg.levels = n + 1 := ⟨cfg.levels - 1, by omega⟩
  have hheadB : (ladderBids cfg noise mid).head? = some
      { price := round6 (mid - cfg.tick_size * ((0 : ℚ) + 1))
        quantity := round6 (cfg.base_quantity * cfg.quantity_decay ^ 0) } := by
    rw [hBeq, hn, List.range_succ_eq_map]
    simp
  have hheadA : (ladderAsks cfg noise mid).head? = some
      { price := round6 (mid + cfg.tick_size * ((0 : ℚ) + 1))
        quantity := round6 (cfg.base_quantity * cfg.quantity_decay ^ 0) } := by
    rw [hAeq, hn, List.range_succ_eq_map]
    simp
  have hmatch : (ladderBids cfg noise mid).head?.all
      (fun b => (ladderAsks cfg noise mid).head?.all
        (fun a => decide (b.price < a.price))) = true := by
    rw [hheadB, hheadA]
    simpa [Option.all] using hbest
  have hval : snapshotValid (ladderBids cfg noise mid) (ladderAsks cfg noise mid) = true := by
    rw [snapshotValid]
    simp only [Bool.and_eq_true]
    refine ⟨⟨⟨⟨?_, ?_⟩, ?_⟩, ?_⟩, hmatch⟩
    · rw [List.all_eq_true]
      intro l hl
      rw [hBeq] at hl
      obtain ⟨k, hkmem, rfl⟩ := List.mem_map.mp hl
      simpa using hqpos k (List.mem_range.mp hkmem)
    · rw [List.all_eq_true]
      intro l hl
      rw [hAeq] at hl
      obtain ⟨k, hkmem, rfl⟩ := List.mem_map.mp hl
      simpa using hqpos k (List.mem_range.mp hkmem)
    · exact (is_descending_iff _).mpr (hchainB.imp (fun _ _ h => le_of_lt h))
    · exact (is_ascending_iff _).mpr (hchainA.imp (fun _ _ h => le_of_lt h))
  refine ⟨{ instrument_id := iid, timestamp := ts,
            bids := ladderBids cfg noise mid,
            asks := ladderAsks cfg noise mid },
    ?_, ?_, ?_, hchainB, hchainA, ?_⟩
  · rw [build, if_neg (not_le.mpr hmid), if_pos hval]
  · rw [hBeq]; simp
  · rw [hAeq]; simp
  · intro b a hb ha
    rw [hheadB] at hb
    rw [hheadA] at ha
    cases hb; cases ha
    simpa using hbest


def cexNoise : ℕ → ℚ := fun _ => -1/2

def cexBookCfg : OrderBookDepthConfig :=
  { levels := 1, tick_size := 1/100, base_quantity := 500,
    quantity_decay := 3/5, price_noise := 1 }

/-- C6 counterexample: with a valid config (`price_noise = 1 > 0`) and a
noise draw of −0.5, the ladder inverts (best bid 100.49 above best ask
99.51) and `build` raises a validation error instead of returning a
clamped snapshot. -/
theorem build_noise_not_clamped :
    cexBookCfg.valid ∧ (0 : ℚ) < 100 ∧
    (build "EQ-NOISE" cexBookCfg cexNoise 100 0).isOk = false := by
  refine ⟨by norm_num [cexBookCfg, OrderBookDepthConfig.valid], by norm_num, ?_⟩
  norm_num [build, cexBookCfg, cexNoise, ladderBids, ladderAsks, snapshotValid,
    is_descending, is_ascending, Option.all, round6, rhe, List.range_succ,
    Except.isOk, Except.toBool]

def exLadderCfg : OrderBookDepthConfig :=
  { levels := 3, tick_size := 1/100, base_quantity := 500,
    quantity_decay := 3/5, price_noise := 0 }

/-- Witness for the amended C6 at the spec §8 scenario-1 parameters. -/
theorem build_ladder_sorted_witness :
    exLadderCfg.valid ∧ exLadderCfg.price_noise = 0 ∧
    (1/1000000 : ℚ) < exLadderCfg.tick_size ∧
    (1/2000000 : ℚ) < exLadderCfg.base_quantity *
      exLadderCfg.quantity_decay ^ (exLadderCfg.levels - 1) ∧
    (0 : ℚ) < 100 ∧
    ∃ snap, build "EQ-BOOK" exLadderCfg (fun _ => 0) 100 0 = .ok snap ∧
      snap.bids.length = exLadderCfg.levels ∧
      snap.asks.length = exLadderCfg.levels ∧
      List.Chain' (· > ·) (snap.bids.map (·.price)) ∧
      List.Chain' (· < ·) (snap.asks.map (·.price)) ∧
      (∀ b a, snap.bids.head? = some b → snap.asks.head? = some a →
        b.price < a.price) :=
  ⟨by norm_num [exLadderCfg, OrderBookDepthConfig.valid], rfl,
   by norm_num [exLadderCfg], by norm_num [exLadderCfg], by norm_num,
   build_ladder_sorted "EQ-BOOK" exLadderCfg (fun _ => 0) 100 0
     (by norm_num [exLadderCfg, OrderBookDepthConfig.valid]) rfl
     (by norm_num [exLadderCfg]) (by norm_num [exLadderCfg]) (by norm_num)⟩

/-! ## Dealer-quote generator (market_data/generators/dealer_quotes.py) -/

/-- `DealerQuoteConfig`; `valid` captures its `__post_init__` checks. -/
structure DealerQuoteConfig where
  base_spread : ℚ
  spread_volatility : ℚ
  min_spread : ℚ
deriving DecidableEq, Repr

def DealerQuoteConfig.valid (c : DealerQuoteConfig) : Prop :=
  0 < c.base_spread ∧ 0 ≤ c.spread_volatility ∧ 0 < c.min_spread

/-- `market_data.models.DealerQuoteEvent` (validated `ask > bid`). -/
structure DealerQuoteEvent where
  instrument_id : String
  dealer_id : String
  timestamp : ℤ
  bid : ℚ
  ask : ℚ
deriving DecidableEq, Repr

/-- The per-dealer loop of `DealerQuoteGenerator.generate`:
`spread = max(base_spread + noise, min_spread)` with the noise draw
consumed only when `spread_volatility > 0`; `bid/ask = mid ∓ spread/2`
rounded to 6 decimals.  `i` indexes the RNG draw per dealer. -/
def dealerQuotes (iid : String) (cfg : DealerQuoteConfig) (noise : ℕ → ℚ)
    (mid_rate : ℚ) (ts : ℤ) : List String → ℕ → List DealerQuoteEvent
  | [], _ => []
  | dealer_id :: rest, i =>
    { instrument_id := iid
      dealer_id := dealer_id
      timestamp := ts
      bid := round6 (mid_rate -
        max (cfg.base_spread + (if 0 < cfg.spread_volatility then noise i else 0))
          cfg.min_spread / 2)
      ask := round6 (mid_rate +
        max (cfg.base_spread + (if 0 < cfg.spread_volatility then noise i else 0))
          cfg.min_spread / 2) } ::
      dealerQuotes iid cfg noise mid_rate ts rest (i + 1)

/-- `DealerQuoteGenerator.generate`.  A pydantic `ValidationError` raised
while constructing a quote (`ask ≤ bid`) is an `.error` result. -/
def generate (iid : String) (dealers : List String) (cfg : DealerQuoteConfig)
    (noise : ℕ → ℚ) (mid_rate : ℚ) (ts : ℤ) :
    Except String (List DealerQuoteEvent) :=
  if mid_rate ≤ 0 then .error "mid_rate must be positive"
  else if (dealerQuotes iid cfg noise mid_rate ts dealers 0).all
      (fun q => decide (q.bid < q.ask)) then
    .ok (dealerQuotes iid cfg noise mid_rate ts dealers 0)
  else .error "Dealer ask must be strictly greater than bid"

theorem dealerQuotes_spec (iid : String) (cfg : DealerQuoteConfig)
    (noise : ℕ → ℚ) (mid_rate : ℚ) (ts : ℤ)
    (hmin : 1/1000000 < cfg.min_spread) :
    ∀ (ds : List String) (i : ℕ),
      (dealerQuotes iid cfg noise mid_rate ts ds i).length = ds.length ∧
      (dealerQuotes iid cfg noise mid_rate ts ds i).map (·.dealer_id) = ds ∧
      ∀ q ∈ dealerQuotes iid cfg noise mid_rate ts ds i,
        q.bid < q.ask ∧
        ∃ s, cfg.min_spread ≤ s ∧
          (∃ j, s = max (cfg.base_spread +
            (if 0 < cfg.spread_volatility then noise j else 0)) cfg.min_spread) ∧
          q.bid = round6 (mid_rate - s / 2) ∧ q.ask = round6 (mid_rate + s / 2) := by
  intro ds
  induction ds with
  | nil => intro i; refine ⟨rfl, rfl, ?_⟩; intro q hq; simp [dealerQuotes] at hq
  | cons d rest ih =>
    intro i
    obtain ⟨ihlen, ihmap, ihmem⟩ := ih (i + 1)
    refine ⟨?_, ?_, ?_⟩
    · simp [dealerQuotes, ihlen]
    · simp [dealerQuotes, ihmap]
    · intro q hq
      rw [dealerQuotes, List.mem_cons] at hq
      rcases hq with rfl | hq
      · have hs : cfg.min_spread ≤ max (cfg.base_spread +
            (if 0 < cfg.spread_volatility then noise i else 0)) cfg.min_spread :=
          le_max_right _ _
        refine ⟨?_, max (cfg.base_spread +
            (if 0 < cfg.spread_volatility then noise i else 0)) cfg.min_spread,
          hs, ⟨i, rfl⟩, rfl, rfl⟩
        apply round6_lt_round6
        have hgap : mid_rate + max (cfg.base_spread +
            (if 0 < cfg.spread_volatility then noise i else 0)) cfg.min_spread / 2 -
            (mid_rate - max (cfg.base_spread +
            (if 0 < cfg.spread_volatility then noise i else 0)) cfg.min_spread / 2) =
            max (cfg.base_spread +
            (if 0 < cfg.spread_volatility then noise i else 0)) cfg.min_spread := by
          ring
        linarith [hgap, hs]
      · exact ihmem q hq

/-- Amended C7: for every valid config whose `min_spread` exceeds the 1e-6
rounding grid, every positive mid rate and any noise draws, `generate`
returns exactly one quote per configured dealer, in order, with
`spread = max(base_spread + noise, min_spread)`,
`bid/ask = mid ∓ spread/2` rounded to 6 decimals, and `ask > bid`. -/
theorem generate_quotes_spec (iid : String) (dealers : List String)
    (cfg : DealerQuoteConfig) (noise : ℕ → ℚ) (mid_rate : ℚ) (ts : ℤ)
    (hvalid : cfg.valid) (hmin : 1/1000000 < cfg.min_spread) (hmid : 0 < mid_rate) :
    ∃ qs, generate iid dealers cfg noise mid_rate ts = .ok qs ∧
      qs.length = dealers.length ∧
      qs.map (·.dealer_id) = dealers ∧
      ∀ q ∈ qs, q.bid < q.ask ∧
        ∃ s, cfg.min_spread ≤ s ∧
          (∃ j, s = max (cfg.base_spread +
            (if 0 < cfg.spread_volatility then noise j else 0)) cfg.min_spread) ∧
          q.bid = round6 (mid_rate - s / 2) ∧ q.ask = round6 (mid_rate + s / 2) := by
  obtain ⟨hlen, hmap, hmem⟩ := dealerQuotes_spec iid cfg noise mid_rate ts hmin dealers 0
  have hall : (dealerQuotes iid cfg noise mid_rate ts dealers 0).all
      (fun q => decide (q.bid < q.ask)) = true := by
    rw [List.all_eq_true]
    intro q hq
    simpa using (hmem q hq).1
  refine ⟨dealerQuotes iid cfg noise mid_rate ts dealers 0, ?_, hlen, hmap, hmem⟩
  rw [generate, if_neg (not_le.mpr hmid), if_pos hall]


def cexQuoteCfg : DealerQuoteConfig :=
  { base_spread := 1/10000000, spread_volatility := 0, min_spread := 1/10000000 }

/-- C7 counterexample: with the valid config `base_spread = min_spread =
1e-7`, rounding both sides to 6 decimals collapses the spread
(`bid = ask = mid`), so `generate` raises the `ask > bid` validation error
instead of returning one quote per dealer. -/
theorem generate_collapsed_spread :
    cexQuoteCfg.valid ∧ (0 : ℚ) < 1 ∧
    (generate "SWAP-5Y" ["DEALER-A"] cexQuoteCfg (fun _ => 0) 1 0).isOk = false := by
  refine ⟨by norm_num [cexQuoteCfg, DealerQuoteConfig.valid], by norm_num, ?_⟩
  norm_num [generate, dealerQuotes, cexQuoteCfg, round6, rhe,
    Except.isOk, Except.toBool]

def exQuoteCfg : DealerQuoteConfig :=
  { base_spread := 1/2000, spread_volatility := 1/5000, min_spread := 1/100000 }

/-- Witness for the amended C7 at the dealer-quote test parameters. -/
theorem generate_quotes_spec_witness :
    exQuoteCfg.valid ∧ (1/1000000 : ℚ) < exQuoteCfg.min_spread ∧ (0 : ℚ) < 3/200 ∧
    ∃ qs, generate "SWAP-5Y" ["DEALER-A", "DEALER-B"] exQuoteCfg
        (fun _ => 1/10000) (3/200) 0 = .ok qs ∧
      qs.length = (["DEALER-A", "DEALER-B"] : List String).length ∧
      qs.map (·.dealer_id) = ["DEALER-A", "DEALER-B"] ∧
      ∀ q ∈ qs, q.bid < q.ask ∧
        ∃ s, exQuoteCfg.min_spread ≤ s ∧
          (∃ j, s = max (exQuoteCfg.base_spread +
            (if 0 < exQuoteCfg.spread_volatility then (fun (_ : ℕ) => (1/10000 : ℚ)) j else 0))
            exQuoteCfg.min_spread) ∧
          q.bid = round6 (3/200 - s / 2) ∧ q.ask = round6 (3/200 + s / 2) :=
  ⟨by norm_num [exQuoteCfg, DealerQuoteConfig.valid], by norm_num [exQuoteCfg],
   by norm_num,
   generate_quotes_spec "SWAP-5Y" ["DEALER-A", "DEALER-B"] exQuoteCfg
     (fun _ => 1/10000) (3/200) 0
     (by norm_num [exQuoteCfg, DealerQuoteConfig.valid])
     (by norm_num [exQuoteCfg]) (by norm_num)⟩

/-! ## Market-data pump (market_data/service.py) -/

/-- `InstrumentFeed` restricted to the fields `pump_once` scheduling
reads; `update_interval` in abstract clock units (validated positive). -/
structure InstrumentFeed where
  instrument_id : String
  update_interval : ℤ
deriving DecidableEq, Repr

/-- Overwriting entry assignment for the `_next_emission` dict. -/
def setNextDue (iid : String) (t : ℤ) : List (String × ℤ) → List (String × ℤ)
  | [] => [(iid, t)]
  | (k, v) :: rest => if k = iid then (iid, t) :: rest else (k, v) :: setNextDue iid t rest

/-- The due test of `pump_once`: a feed is skipped iff
`next_due is not None and timestamp < next_due`. -/
def isDue (nd : List (String × ℤ)) (t : ℤ) (f : InstrumentFeed) : Bool :=
  match nd.lookup f.instrument_id with
  | none => true
  | some due => !(decide (t < due))

/-- The first loop of `pump_once`: collect the due feeds (their ticks are
generated here) and advance `next_due ← t + update_interval` for each,
before any persist or publish I/O happens. -/
def pumpSchedule (t : ℤ) : List InstrumentFeed → List (String × ℤ) →
    List InstrumentFeed × List (String × ℤ)
  | [], nd => ([], nd)
  | f :: fs, nd =>
    if isDue nd t f then
      let next := pumpSchedule t fs (setNextDue f.instrument_id (t + f.update_interval) nd)
      (f :: next.1, next.2)
    else pumpSchedule t fs nd

/-- The second loop of `pump_once`: each due feed's persist/publish
pipeline (with its bounded retries) is abstracted by the oracle `emitOk`;
on the first feed whose pipeline fails, the exception propagates and the
pump aborts, emitting nothing further.  Returns the ids emitted and the
aborting feed's id, if any. -/
def pumpEmit (emitOk : String → Bool) : List InstrumentFeed → List String × Option String
  | [] => ([], none)
  | f :: fs =>
    if emitOk f.instrument_id then
      let next := pumpEmit emitOk fs
      (f.instrument_id :: next.1, next.2)
    else ([], some f.instrument_id)

/-- `MarketDataService.pump_once`: schedule, then emit. -/
def pump_once (t : ℤ) (feeds : List InstrumentFeed) (nd : List (String × ℤ))
    (emitOk : String → Bool) :
    (List String × Option String) × List (String × ℤ) :=
  ((pumpEmit emitOk (pumpSchedule t feeds nd).1), (pumpSchedule t feeds nd).2)

theorem lookup_setNextDue_self (iid : String) (t : ℤ) :
    ∀ nd : List (String × ℤ), (setNextDue iid t nd).lookup iid = some t := by
  intro nd
  induction nd with
  | nil => simp [setNextDue]
  | cons hd rest ih =>
    obtain ⟨k, v⟩ := hd
    by_cases hk : k = iid
    · subst hk
      simp [setNextDue, List.lookup]
    · have hbeq : (iid == k) = false := by
        simp only [beq_eq_false_iff_ne, ne_eq]
        exact fun h => hk h.symm
      simp [setNextDue, hk, List.lookup, hbeq, ih]

theorem lookup_setNextDue_other (iid k : String) (t : ℤ) (hk : k ≠ iid) :
    ∀ nd : List (String × ℤ), (setNextDue iid t nd).lookup k = nd.lookup k := by
  intro nd
  have hbeq : (k == iid) = false := by
    simp only [beq_eq_false_iff_ne, ne_eq]
    exact hk
  induction nd with
  | nil => simp [setNextDue, List.lookup, hbeq]
  | cons hd rest ih =>
    obtain ⟨k', v⟩ := hd
    by_cases hk' : k' = iid
    · subst hk'
      simp [setNextDue, List.lookup, hbeq]
    · cases hkk : (k == k') <;> simp [setNextDue, hk', List.lookup, hkk, ih]

/-- `isDue` is unaffected by advancing another feed's `next_due`. -/
theorem isDue_setNextDue_other (nd : List (String × ℤ)) (t t' : ℤ)
    (f : InstrumentFeed) (iid : String) (h : f.instrument_id ≠ iid) :
    isDue (setNextDue iid t' nd) t f = isDue nd t f := by
  rw [isDue, isDue, lookup_setNextDue_other iid f.instrument_id t' h nd]

/-- The emissions list is a sublist of the feed list. -/
theorem pumpSchedule_sublist (t : ℤ) :
    ∀ (fs : List InstrumentFeed) (nd : List (String × ℤ)),
      (pumpSchedule t fs nd).1.Sublist fs := by
  intro fs
  induction fs with
  | nil => intro nd; simp [pumpSchedule]
  | cons f rest ih =>
    intro nd
    by_cases hd : isDue nd t f
    · simpa [pumpSchedule, hd] using List.Sublist.cons₂ f (ih _)
    · simpa [pumpSchedule, hd] using List.Sublist.cons f (ih nd)

/-- Ids not scheduled are untouched by the first loop. -/
theorem pumpSchedule_lookup_not_mem (t : ℤ) :
    ∀ (fs : List InstrumentFeed) (nd : List (String × ℤ)) (iid : String),
      iid ∉ fs.map (·.instrument_id) →
      ((pumpSchedule t fs nd).2).lookup iid = nd.lookup iid := by
  intro fs
  induction fs with
  | nil => intro nd iid _; rfl
  | cons f rest ih =>
    intro nd iid hmem
    simp only [List.map_cons, List.mem_cons, not_or] at hmem
    by_cases hd : isDue nd t f
    · rw [pumpSchedule]
      simp only [hd, if_true]
      rw [ih _ iid hmem.2, lookup_setNextDue_other f.instrument_id iid _ hmem.1 nd]
    · rw [pumpSchedule]
      simp only [hd, if_false]
      exact ih nd iid hmem.2


/-- A feed's tick is generated in a pump exactly when it is due. -/
theorem pumpSchedule_mem (t : ℤ) :
    ∀ (fs : List InstrumentFeed) (nd : List (String × ℤ)),
      (fs.map (·.instrument_id)).Nodup →
      ∀ f ∈ fs, (f ∈ (pumpSchedule t fs nd).1 ↔ isDue nd t f = true) := by
  intro fs
  induction fs with
  | nil => intro nd _ f hf; simp at hf
  | cons g rest ih =>
    intro nd hnodup f hf
    simp only [List.map_cons, List.nodup_cons] at hnodup
    obtain ⟨hgid, hrest⟩ := hnodup
    rcases List.mem_cons.mp hf with rfl | hfr
    · by_cases hd : isDue nd t f
      · simp [pumpSchedule, hd]
      · simp only [pumpSchedule, hd, if_false]
        constructor
        · intro hmem
          have : f ∈ rest := (pumpSchedule_sublist t rest nd).mem hmem
          exact absurd (List.mem_map_of_mem (·.instrument_id) this) hgid
        · intro h; exact Bool.noConfusion h
    · have hne : f.instrument_id ≠ g.instrument_id := by
        intro h
        exact hgid (h ▸ List.mem_map_of_mem (·.instrument_id) hfr)
      by_cases hd : isDue nd t g
      · simp only [pumpSchedule, hd, if_true]
        rw [List.mem_cons]
        constructor
        · intro hmem
          rcases hmem with rfl | hmem
          · exact absurd rfl hne
          · rw [← isDue_setNextDue_other nd t (t + g.update_interval) f g.instrument_id hne]
            exact (ih _ hrest f hfr).mp hmem
        · intro hdue
          right
          refine (ih _ hrest f hfr).mpr ?_
          rw [isDue_setNextDue_other nd t _ f g.instrument_id hne]
          exact hdue
      · simp only [pumpSchedule, hd, if_false]
        exact ih nd hrest f hfr

/-- Every due feed's `next_due` is advanced to `t + update_interval` by the
first loop. -/
theorem pumpSchedule_lookup_due (t : ℤ) :
    ∀ (fs : List InstrumentFeed) (nd : List (String × ℤ)),
      (fs.map (·.instrument_id)).Nodup →
      ∀ f ∈ fs, isDue nd t f = true →
        ((pumpSchedule t fs nd).2).lookup f.instrument_id =
          some (t + f.update_interval) := by
  intro fs
  induction fs with
  | nil => intro nd _ f hf; simp at hf
  | cons g rest ih =>
    intro nd hnodup f hf hdue
    simp only [List.map_cons, List.nodup_cons] at hnodup
    obtain ⟨hgid, hrest⟩ := hnodup
    rcases List.mem_cons.mp hf with rfl | hfr
    · rw [pumpSchedule]
      simp only [hdue, if_true]
      rw [pumpSchedule_lookup_not_mem t rest _ f.instrument_id hgid,
        lookup_setNextDue_self]
    · have hne : f.instrument_id ≠ g.instrument_id := by
        intro h
        exact hgid (h ▸ List.mem_map_of_mem (·.instrument_id) hfr)
      by_cases hd : isDue nd t g
      · rw [pumpSchedule]
        simp only [hd, if_true]
        refine ih _ hrest f hfr ?_
        rw [isDue_setNextDue_other nd t _ f g.instrument_id hne]
        exact hdue
      · rw [pumpSchedule]
        simp only [hd, if_false]
        exact ih nd hrest f hfr hdue

/-- A feed that is not due keeps its `next_due` entry. -/
theorem pumpSchedule_lookup_notdue (t : ℤ) :
    ∀ (fs : List InstrumentFeed) (nd : List (String × ℤ)),
      (fs.map (·.instrument_id)).Nodup →
      ∀ f ∈ fs, isDue nd t f = false →
        ((pumpSchedule t fs nd).2).lookup f.instrument_id =
          nd.lookup f.instrument_id := by
  intro fs
  induction fs with
  | nil => intro nd _ f hf; simp at hf
  | cons g rest ih =>
    intro nd hnodup f hf hdue
    simp only [List.map_cons, List.nodup_cons] at hnodup
    obtain ⟨hgid, hrest⟩ := hnodup
    rcases List.mem_cons.mp hf with rfl | hfr
    · rw [pumpSchedule]
      simp only [hdue, if_false, Bool.false_eq_true]
      exact pumpSchedule_lookup_not_mem t rest nd f.instrument_id hgid
    · have hne : f.instrument_id ≠ g.instrument_id := by
        intro h
        exact hgid (h ▸ List.mem_map_of_mem (·.instrument_id) hfr)
      by_cases hd : isDue nd t g
      · rw [pumpSchedule]
        simp only [hd, if_true]
        rw [ih _ hrest f hfr (by rwa [isDue_setNextDue_other nd t _ f g.instrument_id hne]),
          lookup_setNextDue_other g.instrument_id f.instrument_id _ hne nd]
      · rw [pumpSchedule]
        simp only [hd, if_false]
        exact ih nd hrest f hfr hdue


/-- C8: On a pump at wall time `t`, a feed's tick is generated iff its
`next_due` is unset or `t ≥ next_due`; for every feed that emits,
`next_due` is set to `t + update_interval`, and this advancement is
performed by the scheduling loop before any persist/publish I/O, so it
stands whatever the emission oracle later does — a failing feed is not
retried before its next interval.  Non-due feeds keep their entry. -/
theorem pump_once_scheduling (t : ℤ) (feeds : List InstrumentFeed)
    (nd : List (String × ℤ)) (emitOk : String → Bool)
    (hnodup : (feeds.map (·.instrument_id)).Nodup) :
    (∀ f ∈ feeds, f ∈ (pumpSchedule t feeds nd).1 ↔ isDue nd t f = true) ∧
    (∀ f ∈ feeds, isDue nd t f = true →
      ((pump_once t feeds nd emitOk).2).lookup f.instrument_id =
        some (t + f.update_interval)) ∧
    (∀ f ∈ feeds, isDue nd t f = false →
      ((pump_once t feeds nd emitOk).2).lookup f.instrument_id =
        nd.lookup f.instrument_id) ∧
    (∀ emitOk' : String → Bool,
      (pump_once t feeds nd emitOk).2 = (pump_once t feeds nd emitOk').2) :=
  ⟨pumpSchedule_mem t feeds nd hnodup,
   fun f hf hdue => pumpSchedule_lookup_due t feeds nd hnodup f hf hdue,
   fun f hf hdue => pumpSchedule_lookup_notdue t feeds nd hnodup f hf hdue,
   fun _ => rfl⟩

/-- The emission loop emits exactly the prefix before the first failing
feed and aborts there. -/
theorem pumpEmit_abort (emitOk : String → Bool) :
    ∀ (es₁ : List InstrumentFeed) (g : InstrumentFeed) (es₂ : List InstrumentFeed),
      (∀ e ∈ es₁, emitOk e.instrument_id = true) →
      emitOk g.instrument_id = false →
      pumpEmit emitOk (es₁ ++ g :: es₂) =
        (es₁.map (·.instrument_id), some g.instrument_id) := by
  intro es₁
  induction es₁ with
  | nil =>
    intro g es₂ _ hfail
    simp [pumpEmit, hfail]
  | cons e rest ih =>
    intro g es₂ hok hfail
    have he : emitOk e.instrument_id = true := hok e (List.mem_cons_self e rest)
    rw [List.cons_append, pumpEmit]
    simp only [he, if_true]
    rw [ih g es₂ (fun x hx => hok x (List.mem_cons_of_mem e hx)) hfail]
    simp

/-- C10: `pump_once` advances `next_due` for every due feed before doing
any I/O; hence if one due feed's emission fails and aborts the pump, each
later due feed of that pump emits nothing even though its `next_due` was
already advanced to `t + update_interval` — its tick is dropped, not
retried. -/
theorem pump_once_abort_drops (t : ℤ) (feeds : List InstrumentFeed)
    (nd : List (String × ℤ)) (emitOk : String → Bool)
    (hnodup : (feeds.map (·.instrument_id)).Nodup)
    (es₁ : List InstrumentFeed) (g : InstrumentFeed) (es₂ : List InstrumentFeed)
    (hsplit : (pumpSchedule t feeds nd).1 = es₁ ++ g :: es₂)
    (hok : ∀ e ∈ es₁, emitOk e.instrument_id = true)
    (hfail : emitOk g.instrument_id = false) :
    (pump_once t feeds nd emitOk).1 =
      (es₁.map (·.instrument_id), some g.instrument_id) ∧
    ∀ h ∈ es₂, h.instrument_id ∉ es₁.map (·.instrument_id) ∧
      ((pump_once t feeds nd emitOk).2).lookup h.instrument_id =
        some (t + h.update_interval) := by
  have hemnodup : (((pumpSchedule t feeds nd).1).map (·.instrument_id)).Nodup :=
    hnodup.sublist (List.Sublist.map (·.instrument_id) (pumpSchedule_sublist t feeds nd))
  constructor
  · show pumpEmit emitOk (pumpSchedule t feeds nd).1 = _
    rw [hsplit]
    exact pumpEmit_abort emitOk es₁ g es₂ hok hfail
  · intro h hh
    have hmem : h ∈ (pumpSchedule t feeds nd).1 := by
      rw [hsplit]
      exact List.mem_append_right _ (List.mem_cons_of_mem g hh)
    have hfeeds : h ∈ feeds := (pumpSchedule_sublist t feeds nd).mem hmem
    have hdue : isDue nd t h = true :=
      (pumpSchedule_mem t feeds nd hnodup h hfeeds).mp hmem
    refine ⟨?_, pumpSchedule_lookup_due t feeds nd hnodup h hfeeds hdue⟩
    rw [hsplit, List.map_append] at hemnodup
    have hdisj := (List.nodup_append.mp hemnodup).2.2
    intro habs
    exact hdisj habs (by
      simp only [List.map_cons, List.mem_cons]
      right
      exact List.mem_map_of_mem (·.instrument_id) hh)


def exFeedFast : InstrumentFeed := { instrument_id := "fast", update_interval := 1 }

def exFeedMid : InstrumentFeed := { instrument_id := "mid", update_interval := 2 }

def exFeedSlow : InstrumentFeed := { instrument_id := "slow", update_interval := 3 }

def exFeeds : List InstrumentFeed := [exFeedFast, exFeedMid, exFeedSlow]

def exEmitOk : String → Bool := fun iid => !(iid == "mid")

theorem pump_once_scheduling_witness :
    (exFeeds.map (·.instrument_id)).Nodup ∧
    ((∀ f ∈ exFeeds, f ∈ (pumpSchedule 0 exFeeds []).1 ↔ isDue [] 0 f = true) ∧
     (∀ f ∈ exFeeds, isDue [] 0 f = true →
       ((pump_once 0 exFeeds [] exEmitOk).2).lookup f.instrument_id =
         some (0 + f.update_interval)) ∧
     (∀ f ∈ exFeeds, isDue [] 0 f = false →
       ((pump_once 0 exFeeds [] exEmitOk).2).lookup f.instrument_id =
         ([] : List (String × ℤ)).lookup f.instrument_id) ∧
     (∀ emitOk' : String → Bool,
       (pump_once 0 exFeeds [] exEmitOk).2 = (pump_once 0 exFeeds [] emitOk').2)) :=
  ⟨by decide, pump_once_scheduling 0 exFeeds [] exEmitOk (by decide)⟩

theorem pump_once_abort_drops_witness :
    (exFeeds.map (·.instrument_id)).Nodup ∧
    (pumpSchedule 0 exFeeds []).1 = [exFeedFast] ++ exFeedMid :: [exFeedSlow] ∧
    ((pump_once 0 exFeeds [] exEmitOk).1 =
      ([exFeedFast].map (·.instrument_id), some exFeedMid.instrument_id) ∧
     ∀ h ∈ [exFeedSlow], h.instrument_id ∉ [exFeedFast].map (·.instrument_id) ∧
       ((pump_once 0 exFeeds [] exEmitOk).2).lookup h.instrument_id =
         some (0 + h.update_interval)) :=
  ⟨by decide, by decide,
   pump_once_abort_drops 0 exFeeds [] exEmitOk (by decide)
     [exFeedFast] exFeedMid [exFeedSlow] (by decide) (by decide) (by decide)⟩

end TradingBoard
